import Mathlib

/-!
Verification of the vibegraph overlay's timeline buffer, playback clock,
device registry, target resolution and event dispatch logic
(`frontend/src/overlays/vibegraph/App.vue`).

The component's script is embedded shallowly: the reactive refs
(`devices`, `tFrameBegin`, `tFrameEnd`, `tNow`, `tTotal`, `username`,
`config`) together with the chart's per-slot point arrays
(`chart.data.datasets[i].data`) form one record `VibeState`; each
mutating function of the script becomes a pure function
`VibeState → ... → VibeState × Bool` returning the new state and the
`hasChanged` flag the source returns.  JavaScript numbers are modelled
as rationals; `Map<string, _>` is modelled as an association list with
JS `Map.set`/`Map.get` semantics (insertion order, overwrite in place).
-/

namespace VibeGraph

/-- Number of chart datasets: `LINE_COLORS.length` in the source. -/
def NUM_SLOTS : ℕ := 5

/-- `const VISIBLE_PAST = 5_000` (ms). -/
def VISIBLE_PAST : ℚ := 5000

/-- `const STEP_SMOOTHING = 100` (ms). -/
def STEP_SMOOTHING : ℚ := 100

/-- JavaScript `Math.min` on (non-NaN) numbers. -/
def mathMin (a b : ℚ) : ℚ := if a ≤ b then a else b

/-- One chart point `{x, y}`: virtual time (ms) and intensity value. -/
structure Sample where
  x : ℚ
  y : ℚ
deriving DecidableEq, Repr

/-- `type VibeTargetMode = "OVERRIDE" | "EXCLUSIVE"`. -/
inductive VibeTargetMode where
  | OVERRIDE : VibeTargetMode
  | EXCLUSIVE : VibeTargetMode
deriving DecidableEq, Repr

/-- `type VibeTarget = { device, value }`. -/
structure VibeTarget where
  device : String
  value : ℚ
deriving DecidableEq, Repr

/-- `type VibeFrame = { id, duration, value, targets, mode }`. -/
structure VibeFrame where
  id : ℕ
  duration : ℚ
  value : ℚ
  targets : List VibeTarget
  mode : VibeTargetMode
deriving DecidableEq, Repr

/-- `type VibeGroup = { username, frames }`. -/
structure VibeGroup where
  username : String
  frames : List VibeFrame
deriving DecidableEq, Repr

/-- `type VibeConfig = { hidden, paused, strength }`. -/
structure VibeConfig where
  hidden : Bool
  paused : Bool
  strength : ℚ
deriving DecidableEq, Repr

/-- The component's mutable state: device list (names, in slot order),
per-slot chart data, attribution username, the clock refs
`tFrameBegin`/`tFrameEnd`/`tNow`/`tTotal`, and the config mirror. -/
structure VibeState where
  config : VibeConfig
  devices : List String
  datasets : List (List Sample)
  username : String
  frameBegin : ℚ
  frameEnd : ℚ
  now : ℚ
  total : ℚ
deriving DecidableEq, Repr

/-- The state right after component initialisation: no devices, five
empty datasets, all clock refs zero. -/
def initState : VibeState :=
  ⟨⟨false, false, 100⟩, [], List.replicate NUM_SLOTS [], "", 0, 0, 0, 0⟩

/-- JS `Map.set`: overwrite the entry for the key in place if present,
else append a new entry at the end (insertion order preserved). -/
def mapSet : List (String × ℚ) → String → ℚ → List (String × ℚ)
  | [], k, v => [(k, v)]
  | p :: rest, k, v => if p.1 = k then (k, v) :: rest else p :: mapSet rest k v

/-- JS `Map.get` (only the numeric value of the stored target matters). -/
def mapGet (m : List (String × ℚ)) (k : String) : Option ℚ :=
  (m.find? (fun p => p.1 == k)).map Prod.snd

/-- JS `Map.has`. -/
def mapHas (m : List (String × ℚ)) (k : String) : Bool :=
  m.any (fun p => p.1 == k)

/-- `mapVibeTargets(frame)`: explicit targets first (`Map.set`, so a
duplicated device keeps the last listed value), then in OVERRIDE mode
every known device not yet present gets `frame.value`. -/
def mapVibeTargets (devices : List String) (frame : VibeFrame) : List (String × ℚ) :=
  let m := frame.targets.foldl (fun m t => mapSet m t.device t.value) []
  match frame.mode with
  | .OVERRIDE => devices.foldl (fun m d => if mapHas m d then m else mapSet m d frame.value) m
  | .EXCLUSIVE => m

/-- The dataset rebuild inside `addFrame`: `devices.forEach((device, i))`
pushes two points onto `datasets[i]` when the device resolves a target;
datasets without a matching device index are untouched, devices without
a dataset (`if (!ds) return`) are skipped. -/
def appendTargets (tm : List (String × ℚ)) (tA tB : ℚ) :
    List String → List (List Sample) → List (List Sample)
  | _, [] => []
  | [], dss => dss
  | n :: ns, ds :: dss =>
    (match mapGet tm n with
     | some v => ds ++ [⟨tA, v⟩, ⟨tB, v⟩]
     | none => ds) :: appendTargets tm tA tB ns dss

/-- `addFrame(frame)`: reject non-positive durations; otherwise push, for
each device with a resolved target and an existing dataset, the points
`(tTotal, v)` and `(tTotal + duration - Math.min(duration * 0.2,
STEP_SMOOTHING), v)`; if any device changed, advance `tTotal` by the
duration and report `true`. -/
def addFrame (s : VibeState) (frame : VibeFrame) : VibeState × Bool :=
  if frame.duration ≤ 0 then (s, false)
  else
    let tm := mapVibeTargets s.devices frame
    let tEnd := s.total + frame.duration - mathMin (frame.duration * (1/5)) STEP_SMOOTHING
    let changed := (s.devices.zip s.datasets).any (fun p => (mapGet tm p.1).isSome)
    ({s with
        datasets := appendTargets tm s.total tEnd s.devices s.datasets,
        total := if changed then s.total + frame.duration else s.total},
      changed)

/-- `advance(amount)`: reject `amount <= 0`; otherwise open a new frame
interval `[frameEnd, frameEnd + amount]` and snap `tNow` to its start. -/
def advance (s : VibeState) (amount : ℚ) : VibeState × Bool :=
  if amount ≤ 0 then (s, false)
  else
    ({s with frameBegin := s.frameEnd, frameEnd := s.frameEnd + amount, now := s.frameEnd},
      true)

/-- `resetGroup()`: zero the clock refs and username, then — only if
`isEmpty()` is false, i.e. the FIRST dataset is non-empty — clear every
dataset and report `true`. -/
def resetGroup (s : VibeState) : VibeState × Bool :=
  let s1 := {s with frameBegin := 0, frameEnd := 0, now := 0, total := 0, username := ""}
  if (s1.datasets.headD []).length = 0 then (s1, false)
  else ({s1 with datasets := s1.datasets.map (fun _ => ([] : List Sample))}, true)

/-- `setGroup(group)`: reset, compare the (already cleared) username with
the new one, store it, then append every frame of the group in order,
or-ing the changed flags. -/
def setGroup (s : VibeState) (g : VibeGroup) : VibeState × Bool :=
  let r := resetGroup s
  let changed := r.2 || (r.1.username != g.username)
  g.frames.foldl
    (fun acc frame =>
      let r2 := addFrame acc.1 frame
      (r2.1, r2.2 || acc.2))
    ({r.1 with username := g.username}, changed)

/-- The JS map built by `updateDevices`: old slot data keyed by device
name (later slots overwrite earlier ones with the same name), with
`Map.get(...) || []` read-out. -/
def oldDataByName (devs : List String) (datasets : List (List Sample)) (n : String) :
    List Sample :=
  ((devs.zip datasets).foldl (fun acc p => if p.1 = n then some p.2 else acc) none).getD []

/-- `updateDevices(updatedDevices)`: no-op when the name list is
unchanged; otherwise truncate to the dataset count, rebuild every slot
from the old data captured by name, clear the leftover slots, and
report `true`. -/
def updateDevices (s : VibeState) (newDevices : List String) : VibeState × Bool :=
  if s.devices = newDevices then (s, false)
  else
    let devs := newDevices.take s.datasets.length
    let newDatasets := (List.range s.datasets.length).map (fun i =>
      match devs[i]? with
      | some n => oldDataByName s.devices s.datasets n
      | none => [])
    ({s with devices := devs, datasets := newDatasets}, true)

/-- The `while (i < data.length && data[i].x < cutoff) i++` scan of
`prune`: index of the first point at or past the cutoff (list length if
none). -/
def findCutoffIdx (cutoff : ℚ) : List Sample → ℕ
  | [] => 0
  | sm :: rest => if sm.x < cutoff then findCutoffIdx cutoff rest + 1 else 0

/-- `prune` on one dataset: empty data is skipped; if every point is
before the cutoff the dataset is cleared; if more than one point is
before the cutoff all but the last of them are spliced off; otherwise
nothing changes. -/
def pruneData (cutoff : ℚ) (data : List Sample) : List Sample × Bool :=
  if data.length = 0 then (data, false)
  else
    let i := findCutoffIdx cutoff data
    if i = data.length then ([], true)
    else if 1 < i then (data.drop (i - 1), true)
    else (data, false)

/-- `prune()`: apply `pruneData` with cutoff `tNow - VISIBLE_PAST` to
every dataset; report whether any dataset changed. -/
def statePrune (s : VibeState) : VibeState × Bool :=
  let results := s.datasets.map (pruneData (s.now - VISIBLE_PAST))
  ({s with datasets := results.map Prod.fst}, results.any Prod.snd)

/-- `update(advance)`: with `dt` the measured wall-clock delta, a
non-positive `dt` is a no-op; otherwise, when ticking is requested and
`tNow < tFrameEnd`, move `tNow` forward by `dt` clamped to `tFrameEnd`;
then prune; the returned flag (which also gates the `chart.update()`
redraw in the source) is whether anything changed. -/
def update (s : VibeState) (dt : ℚ) (adv : Bool) : VibeState × Bool :=
  if dt ≤ 0 then (s, false)
  else
    let moved := adv && decide (s.now < s.frameEnd)
    let s1 := if moved then {s with now := mathMin (s.now + dt) s.frameEnd} else s
    let r := statePrune s1
    (r.1, r.2 || moved)

/-- Inbound feed messages, by `msg.type`. -/
inductive Msg where
  | ping : Msg
  | updateConfig : VibeConfig → Msg
  | updateDevicesMsg : List String → Msg
  | resetGroupMsg : Msg
  | setGroupMsg : VibeGroup → Msg
  | addFrameMsg : VibeFrame → Msg
  | advanceMsg : ℚ → Msg
  | unknownMsg : Msg

/-- The `switch (msg.type)` body of `ws.onmessage`: the state mutation of
each handler together with the `doUpdate` flag the dispatcher keeps.
Note the `reset-group` case calls `resetGroup()` but discards its return
value, leaving `doUpdate` false. -/
def handlerStep (s : VibeState) : Msg → VibeState × Bool
  | .ping => (s, false)
  | .updateConfig c => ({s with config := c}, false)
  | .updateDevicesMsg ds => updateDevices s ds
  | .resetGroupMsg => ((resetGroup s).1, false)
  | .setGroupMsg g => setGroup s g
  | .addFrameMsg f => addFrame s f
  | .advanceMsg a => advance s a
  | .unknownMsg => (s, false)

/-- The changed flag each handler itself reports (before the dispatcher
decides what to do with it). -/
def handlerChanged (s : VibeState) : Msg → Bool
  | .updateDevicesMsg ds => (updateDevices s ds).2
  | .resetGroupMsg => (resetGroup s).2
  | .setGroupMsg g => (setGroup s g).2
  | .addFrameMsg f => (addFrame s f).2
  | .advanceMsg a => (advance s a).2
  | _ => false

/-- One full `ws.onmessage` dispatch outside the animation loop: run the
handler, and if `doUpdate` is set call `update(false)`.  The returned
flag is whether `chart.update()` — the immediate redraw — was executed
(in the source the redraw happens exactly when `update` returns with
`hasChanged` true). -/
def onMessage (s : VibeState) (m : Msg) (dt : ℚ) : VibeState × Bool :=
  let r := handlerStep s m
  if r.2 then update r.1 dt false else (r.1, false)

/-- The operations that can touch the clock/buffer state, for reachable
state reasoning. -/
inductive Op where
  | advanceOp : ℚ → Op
  | tickOp : ℚ → Op
  | addFrameOp : VibeFrame → Op
  | setGroupOp : VibeGroup → Op
  | resetGroupOp : Op

/-- Apply one operation, discarding its changed flag. -/
def applyOp (s : VibeState) : Op → VibeState
  | .advanceOp a => (advance s a).1
  | .tickOp dt => (update s dt true).1
  | .addFrameOp f => (addFrame s f).1
  | .setGroupOp g => (setGroup s g).1
  | .resetGroupOp => (resetGroup s).1

/-- Run a sequence of operations from a start state. -/
def runOps (s : VibeState) (ops : List Op) : VibeState := ops.foldl applyOp s

/-- Run a sequence of `addFrame` calls, discarding the flags. -/
def applyFrames (s : VibeState) (frames : List VibeFrame) : VibeState :=
  frames.foldl (fun s frame => (addFrame s frame).1) s

/-- The clock-bound part of the spec's clock invariant. -/
def ClockInv (s : VibeState) : Prop :=
  s.frameBegin ≤ s.now ∧ s.now ≤ s.frameEnd

/-- The value the explicit target list assigns to a device name, with
last write winning, as an explicit fold. -/
def lastTargetValue (targets : List VibeTarget) (n : String) : Option ℚ :=
  targets.foldl (fun acc t => if t.device = n then some t.value else acc) none

/-! ### Association-list map lemmas -/

theorem mapGet_cons (p : String × ℚ) (rest : List (String × ℚ)) (n : String) :
    mapGet (p :: rest) n = if p.1 = n then some p.2 else mapGet rest n := by
  by_cases h : p.1 = n <;> simp [mapGet, List.find?_cons, h]

theorem mapGet_nil (n : String) : mapGet [] n = none := rfl

theorem mapGet_mapSet (m : List (String × ℚ)) (k : String) (v : ℚ) (n : String) :
    mapGet (mapSet m k v) n = if n = k then some v else mapGet m n := by
  induction m with
  | nil =>
    by_cases h : n = k
    · subst h; simp [mapSet, mapGet_cons]
    · simp [mapSet, mapGet_cons, h, Ne.symm h, mapGet_nil]
  | cons p rest ih =>
    by_cases hpk : p.1 = k
    · simp only [mapSet, if_pos hpk]
      by_cases h : n = k
      · subst h; simp [mapGet_cons]
      · simp [mapGet_cons, h, Ne.symm h, hpk]
    · simp only [mapSet, if_neg hpk]
      by_cases h : n = k
      · subst h
        simp [mapGet_cons, ih, hpk]
      · simp [mapGet_cons, ih, h]

theorem mapHas_eq_isSome (m : List (String × ℚ)) (n : String) :
    mapHas m n = (mapGet m n).isSome := by
  induction m with
  | nil => rfl
  | cons p rest ih =>
    by_cases h : p.1 = n
    · simp [mapHas, List.any_cons, mapGet_cons, h]
    · have hb : (p.1 == n) = false := beq_eq_false_iff_ne.mpr h
      simp only [mapHas, List.any_cons, hb, Bool.false_or, mapGet_cons, if_neg h]
      simpa [mapHas] using ih

theorem mapGet_foldl_set (l : List VibeTarget) (m : List (String × ℚ)) (n : String) :
    mapGet (l.foldl (fun acc t => mapSet acc t.device t.value) m) n =
      l.foldl (fun acc t => if t.device = n then some t.value else acc) (mapGet m n) := by
  induction l generalizing m with
  | nil => rfl
  | cons t ts ih =>
    simp only [List.foldl_cons]
    rw [ih, mapGet_mapSet]
    congr 1
    by_cases h : t.device = n
    · simp [h]
    · simp [h, Ne.symm h]

theorem mapGet_base (targets : List VibeTarget) (n : String) :
    mapGet (targets.foldl (fun acc t => mapSet acc t.device t.value) []) n =
      lastTargetValue targets n :=
  mapGet_foldl_set targets [] n

theorem mapGet_override_fold (devs : List String) (v : ℚ) (m : List (String × ℚ))
    (n : String) :
    mapGet (devs.foldl (fun m d => if mapHas m d then m else mapSet m d v) m) n =
      match mapGet m n with
      | some w => some w
      | none => if n ∈ devs then some v else none := by
  induction devs generalizing m with
  | nil => cases h : mapGet m n <;> simp [h]
  | cons d ds ih =>
    simp only [List.foldl_cons]
    by_cases hd : mapHas m d
    · rw [if_pos hd, ih]
      cases h : mapGet m n with
      | some w => simp
      | none =>
        by_cases hnd : n = d
        · subst hnd
          rw [mapHas_eq_isSome, h] at hd
          simp at hd
        · simp [List.mem_cons, hnd]
    · rw [if_neg hd, ih, mapGet_mapSet]
      by_cases hnd : n = d
      · subst hnd
        rw [mapHas_eq_isSome] at hd
        cases h : mapGet m n with
        | some w => rw [h] at hd; simp at hd
        | none => simp [List.mem_cons]
      · simp only [if_neg hnd]
        cases h : mapGet m n with
        | some w => simp
        | none => simp [List.mem_cons, hnd]

/-- C5.  Target resolution is deterministic (it is a pure function of the
device list and the frame) and resolves as specified: the map assigns a
device name the last value explicitly listed for it in `frame.targets`;
otherwise, in OVERRIDE mode, every known device gets `frame.value`,
while in EXCLUSIVE mode the device gets no entry.  Concretely, for known
devices `A, B` and a frame with `targets = [{A, 0.5}]`, `value = 0.9`,
OVERRIDE yields exactly `{A: 0.5, B: 0.9}` and EXCLUSIVE exactly
`{A: 0.5}`. -/
theorem C5_target_resolution :
    (∀ (devices : List String) (frame : VibeFrame) (n : String),
      mapGet (mapVibeTargets devices frame) n =
        match lastTargetValue frame.targets n with
        | some v => some v
        | none =>
          if frame.mode = VibeTargetMode.OVERRIDE then
            (if n ∈ devices then some frame.value else none)
          else none) ∧
    mapVibeTargets ["A", "B"] ⟨0, 1000, 9/10, [⟨"A", 1/2⟩], .OVERRIDE⟩
      = [("A", 1/2), ("B", 9/10)] ∧
    mapVibeTargets ["A", "B"] ⟨0, 1000, 9/10, [⟨"A", 1/2⟩], .EXCLUSIVE⟩
      = [("A", 1/2)] := by
  refine ⟨?_, rfl, rfl⟩
  intro devices frame n
  cases hm : frame.mode with
  | OVERRIDE =>
    simp only [mapVibeTargets, hm]
    rw [mapGet_override_fold, mapGet_base]
    cases h : lastTargetValue frame.targets n <;> simp
  | EXCLUSIVE =>
    simp only [mapVibeTargets, hm]
    rw [mapGet_base]
    cases h : lastTargetValue frame.targets n <;> simp

/-- C7.  `advance` rejects non-positive amounts and `addFrame` rejects
non-positive durations as pure no-ops; for positive amounts, `advance`
sets `frameBegin` to the previous `frameEnd`, grows `frameEnd` by the
amount, snaps `now` to the new `frameBegin`, and reports `true`. -/
theorem C7_guards_and_advance :
    (∀ (s : VibeState) (a : ℚ), a ≤ 0 → advance s a = (s, false)) ∧
    (∀ (s : VibeState) (frame : VibeFrame), frame.duration ≤ 0 →
      addFrame s frame = (s, false)) ∧
    (∀ (s : VibeState) (a : ℚ), 0 < a →
      advance s a =
        ({s with frameBegin := s.frameEnd, frameEnd := s.frameEnd + a, now := s.frameEnd},
          true)) := by
  refine ⟨?_, ?_, ?_⟩
  · intro s a h; simp [advance, h]
  · intro s frame h; simp [addFrame, h]
  · intro s a h; simp [advance, not_le.mpr h]

/-- Witness for C7 at concrete inputs. -/
theorem C7_guards_and_advance_witness :
    advance initState (-1) = (initState, false) ∧
    addFrame initState ⟨0, 0, 1, [], .OVERRIDE⟩ = (initState, false) ∧
    advance initState 10 =
      ({initState with frameBegin := 0, frameEnd := 10, now := 0}, true) := by
  refine ⟨C7_guards_and_advance.1 initState (-1) (by norm_num),
          C7_guards_and_advance.2.1 initState ⟨0, 0, 1, [], .OVERRIDE⟩ (by norm_num), ?_⟩
  rw [C7_guards_and_advance.2.2 initState 10 (by norm_num)]
  norm_num [initState]

/-! ### addFrame no-op lemmas -/

theorem lastTargetValue_eq_none (targets : List VibeTarget) (n : String)
    (h : ∀ t ∈ targets, t.device ≠ n) : lastTargetValue targets n = none := by
  induction targets with
  | nil => rfl
  | cons t ts ih =>
    have hne := h t (List.mem_cons_self t ts)
    simp only [lastTargetValue, List.foldl_cons, if_neg hne]
    exact ih (fun u hu => h u (List.mem_cons_of_mem t hu))

theorem appendTargets_unchanged (tm : List (String × ℚ)) (tA tB : ℚ) :
    ∀ (ns : List String) (dss : List (List Sample)),
      (∀ n ∈ ns, mapGet tm n = none) → appendTargets tm tA tB ns dss = dss := by
  intro ns
  induction ns with
  | nil => intro dss _; cases dss <;> rfl
  | cons n ns ih =>
    intro dss h
    cases dss with
    | nil => rfl
    | cons ds dss =>
      simp only [appendTargets, h n (List.mem_cons_self n ns)]
      rw [ih dss (fun m hm => h m (List.mem_cons_of_mem n hm))]

theorem addFrame_no_resolved (s : VibeState) (frame : VibeFrame)
    (h : ∀ n ∈ s.devices, mapGet (mapVibeTargets s.devices frame) n = none) :
    addFrame s frame = (s, false) := by
  unfold addFrame
  by_cases hd : frame.duration ≤ 0
  · simp [hd]
  · simp only [if_neg hd]
    have hch : (s.devices.zip s.datasets).any
        (fun p => (mapGet (mapVibeTargets s.devices frame) p.1).isSome) = false := by
      rw [List.any_eq_false]
      intro p hp
      obtain ⟨n, ds⟩ := p
      simp [h n (List.of_mem_zip hp).1]
    rw [appendTargets_unchanged _ _ _ _ _ h, hch]
    simp

/-- C10 (implicit).  `addFrame` returns `false` and leaves the state —
`total` and every device sequence — untouched whenever no device of the
current device list resolves a target: in particular when the device
list is empty, and when an EXCLUSIVE-mode frame only targets device
names absent from the list (resolved entries for unknown names never
produce samples and never advance `total`). -/
theorem C10_no_target_no_mutation :
    (∀ (s : VibeState) (frame : VibeFrame),
      (∀ n ∈ s.devices, mapGet (mapVibeTargets s.devices frame) n = none) →
      addFrame s frame = (s, false)) ∧
    (∀ (s : VibeState) (frame : VibeFrame), s.devices = [] →
      addFrame s frame = (s, false)) ∧
    (∀ (s : VibeState) (frame : VibeFrame),
      frame.mode = VibeTargetMode.EXCLUSIVE →
      (∀ t ∈ frame.targets, t.device ∉ s.devices) →
      addFrame s frame = (s, false)) := by
  refine ⟨addFrame_no_resolved, ?_, ?_⟩
  · intro s frame h
    apply addFrame_no_resolved
    intro n hn
    rw [h] at hn
    simp at hn
  · intro s frame hmode htg
    apply addFrame_no_resolved
    intro n hn
    simp only [mapVibeTargets, hmode]
    rw [mapGet_base]
    exact lastTargetValue_eq_none _ _
      (fun t ht heq => htg t ht (heq ▸ hn))

/-- Witness for C10 at concrete inputs: an EXCLUSIVE frame targeting an
unknown device, an empty device list, and a frame with no resolvable
target at all. -/
theorem C10_no_target_no_mutation_witness :
    addFrame {initState with devices := ["A"]} ⟨0, 1000, 1, [⟨"B", 1⟩], .EXCLUSIVE⟩
      = ({initState with devices := ["A"]}, false) ∧
    addFrame initState ⟨1, 1000, 1, [⟨"A", 1⟩], .OVERRIDE⟩ = (initState, false) ∧
    addFrame {initState with devices := ["A"]} ⟨2, 500, 1, [], .EXCLUSIVE⟩
      = ({initState with devices := ["A"]}, false) := by
  refine ⟨C10_no_target_no_mutation.2.2 _ _ rfl ?_,
          C10_no_target_no_mutation.2.1 initState _ rfl,
          C10_no_target_no_mutation.1 _ _ ?_⟩
  · intro t ht
    simp at ht
    subst ht
    simp
  · intro n hn
    simp at hn
    subst hn
    rfl

/-! ### C8: resetGroup -/

/-- C8 counterexample.  With the first slot's sequence empty but the
second slot non-empty, `resetGroup` reports `false` (the claim demands
`true`, something was non-empty) and does NOT clear the second slot's
sequence (the claim demands every sequence cleared): `isEmpty()` only
inspects `datasets[0]`. -/
theorem C8_counterexample :
    (resetGroup {initState with datasets := [[], [⟨0, 1⟩], [], [], []]}).2 = false ∧
    (resetGroup
        {initState with datasets := [[], [⟨0, 1⟩], [], [], []]}).1.datasets.getD 1 []
      ≠ [] := by
  refine ⟨rfl, ?_⟩
  intro h
  exact List.noConfusion h

/-- C8 amended.  `resetGroup` always zeroes the four clock fields and the
username; it reports `true` exactly when the FIRST slot's sequence is
non-empty, in which case it clears every sequence; when the first slot's
sequence is empty it reports `false` and leaves all sequences (including
any non-empty later slots, and regardless of the clock's previous value)
untouched. -/
theorem C8_reset_behavior :
    ∀ s : VibeState,
      (resetGroup s).1.frameBegin = 0 ∧ (resetGroup s).1.frameEnd = 0 ∧
      (resetGroup s).1.now = 0 ∧ (resetGroup s).1.total = 0 ∧
      (resetGroup s).1.username = "" ∧
      ((resetGroup s).2 = !(s.datasets.headD []).isEmpty) ∧
      ((resetGroup s).2 = true → (resetGroup s).1.datasets = s.datasets.map (fun _ => [])) ∧
      ((resetGroup s).2 = false → (resetGroup s).1.datasets = s.datasets) := by
  intro s
  unfold resetGroup
  dsimp only
  split
  case isTrue h =>
    refine ⟨rfl, rfl, rfl, rfl, rfl, ?_, ?_, fun _ => rfl⟩
    · have hl := List.length_eq_zero.mp h
      rw [hl]
      rfl
    · intro habs
      exact absurd habs Bool.false_ne_true
  case isFalse h =>
    refine ⟨rfl, rfl, rfl, rfl, rfl, ?_, fun _ => ?_, ?_⟩
    · have hl : (s.datasets.headD []).isEmpty = false := by
        cases hd : s.datasets.headD [] with
        | nil => rw [hd] at h; simp at h
        | cons a t => rfl
      rw [hl]
      rfl
    · rfl
    · intro habs
      exact absurd habs.symm Bool.false_ne_true

/-- Witness for C8's amended statement: a state with a non-empty first
slot gets fully cleared; the reset state (empty first slot) keeps its
datasets. -/
theorem C8_reset_behavior_witness :
    (resetGroup {initState with
        datasets := [[⟨0, 1⟩], [], [], [], []], now := 7}).1.datasets
      = [[], [], [], [], []] ∧
    (resetGroup initState).1.datasets = initState.datasets := by
  constructor
  · exact (C8_reset_behavior
      {initState with datasets := [[⟨0, 1⟩], [], [], [], []], now := 7}).2.2.2.2.2.2.1 rfl
  · exact (C8_reset_behavior initState).2.2.2.2.2.2.2 rfl

/-! ### C1: clock invariant -/

theorem addFrame_clock (s : VibeState) (frame : VibeFrame) :
    (addFrame s frame).1.frameBegin = s.frameBegin ∧
    (addFrame s frame).1.frameEnd = s.frameEnd ∧
    (addFrame s frame).1.now = s.now := by
  unfold addFrame
  split <;> exact ⟨rfl, rfl, rfl⟩

theorem foldl_addFrame_clock (frames : List VibeFrame) :
    ∀ acc : VibeState × Bool,
      ((frames.foldl (fun acc frame =>
          ((addFrame acc.1 frame).1, (addFrame acc.1 frame).2 || acc.2)) acc).1.frameBegin
        = acc.1.frameBegin) ∧
      ((frames.foldl (fun acc frame =>
          ((addFrame acc.1 frame).1, (addFrame acc.1 frame).2 || acc.2)) acc).1.frameEnd
        = acc.1.frameEnd) ∧
      ((frames.foldl (fun acc frame =>
          ((addFrame acc.1 frame).1, (addFrame acc.1 frame).2 || acc.2)) acc).1.now
        = acc.1.now) := by
  induction frames with
  | nil => intro acc; exact ⟨rfl, rfl, rfl⟩
  | cons f fs ih =>
    intro acc
    simp only [List.foldl_cons]
    have h1 := ih ((addFrame acc.1 f).1, (addFrame acc.1 f).2 || acc.2)
    have h2 := addFrame_clock acc.1 f
    exact ⟨h1.1.trans h2.1, h1.2.1.trans h2.2.1, h1.2.2.trans h2.2.2⟩

theorem resetGroup_clock (s : VibeState) :
    (resetGroup s).1.frameBegin = 0 ∧ (resetGroup s).1.frameEnd = 0 ∧
    (resetGroup s).1.now = 0 := by
  unfold resetGroup
  dsimp only
  split <;> exact ⟨rfl, rfl, rfl⟩

theorem setGroup_clock (s : VibeState) (g : VibeGroup) :
    (setGroup s g).1.frameBegin = 0 ∧ (setGroup s g).1.frameEnd = 0 ∧
    (setGroup s g).1.now = 0 := by
  have h := foldl_addFrame_clock g.frames
    ({(resetGroup s).1 with username := g.username},
      (resetGroup s).2 || ((resetGroup s).1.username != g.username))
  have hr := resetGroup_clock s
  exact ⟨h.1.trans hr.1, h.2.1.trans hr.2.1, h.2.2.trans hr.2.2⟩

theorem update_clockInv (s : VibeState) (dt : ℚ) (adv : Bool)
    (h1 : s.frameBegin ≤ s.now) (h2 : s.now ≤ s.frameEnd) :
    ClockInv (update s dt adv).1 := by
  unfold update ClockInv
  by_cases hdt : dt ≤ 0
  · rw [if_pos hdt]; exact ⟨h1, h2⟩
  · rw [if_neg hdt]
    have hdt' : 0 < dt := not_le.mp hdt
    dsimp only
    split
    next hm =>
      have hd : decide (s.now < s.frameEnd) = true := by
        cases hb : decide (s.now < s.frameEnd)
        · rw [hb] at hm; simp at hm
        · rfl
      have hlt : s.now < s.frameEnd := of_decide_eq_true hd
      constructor
      · show s.frameBegin ≤ mathMin (s.now + dt) s.frameEnd
        unfold mathMin
        split <;> linarith
      · show mathMin (s.now + dt) s.frameEnd ≤ s.frameEnd
        unfold mathMin
        split
        · assumption
        · linarith
    next hm =>
      exact ⟨h1, h2⟩

theorem applyOp_clockInv (s : VibeState) (op : Op) (h : ClockInv s) :
    ClockInv (applyOp s op) := by
  obtain ⟨h1, h2⟩ := h
  cases op with
  | advanceOp a =>
    show ClockInv (advance s a).1
    unfold advance ClockInv
    by_cases ha : a ≤ 0
    · rw [if_pos ha]; exact ⟨h1, h2⟩
    · rw [if_neg ha]
      have ha' : 0 < a := not_le.mp ha
      exact ⟨le_refl _, by dsimp only; linarith⟩
  | tickOp dt =>
    exact update_clockInv s dt true h1 h2
  | addFrameOp f =>
    show ClockInv (addFrame s f).1
    have hc := addFrame_clock s f
    unfold ClockInv
    rw [hc.1, hc.2.1, hc.2.2]
    exact ⟨h1, h2⟩
  | setGroupOp g =>
    show ClockInv (setGroup s g).1
    have hc := setGroup_clock s g
    unfold ClockInv
    rw [hc.1, hc.2.1, hc.2.2]
    exact ⟨le_refl 0, le_refl 0⟩
  | resetGroupOp =>
    show ClockInv (resetGroup s).1
    have hc := resetGroup_clock s
    unfold ClockInv
    rw [hc.1, hc.2.1, hc.2.2]
    exact ⟨le_refl 0, le_refl 0⟩

/-- C1 counterexample.  The claimed invariant includes `frameEnd ≤ total`,
but `advance` never touches `total`: a single `advance(10)` from the
reset state (which is "after the first advance") leaves
`frameEnd = 10 > total = 0`. -/
theorem C1_total_bound_counterexample :
    ¬ ((runOps initState [Op.advanceOp 10]).frameEnd
        ≤ (runOps initState [Op.advanceOp 10]).total) := by
  norm_num [runOps, applyOp, advance, initState]

/-- C1 amended.  Every state reachable from the reset state by any
sequence of `advance`, `tick`/`update`, `addFrame`, `setGroup` and
`resetGroup` operations satisfies `frameBegin ≤ now ≤ frameEnd`; the
claimed further bound `frameEnd ≤ total` does not hold (see the
counterexample — `advance` leaves `total` untouched). -/
theorem C1_clock_bound (ops : List Op) : ClockInv (runOps initState ops) := by
  have hgen : ∀ (ops : List Op) (s : VibeState), ClockInv s → ClockInv (runOps s ops) := by
    intro ops
    induction ops with
    | nil => intro s h; exact h
    | cons op ops ih => intro s h; exact ih (applyOp s op) (applyOp_clockInv s op h)
  refine hgen ops initState ?_
  unfold ClockInv initState
  norm_num

/-! ### C2: dispatch and immediate redraw -/

/-- C2 counterexample.  An `update-devices` message whose handler reports
`changed = true` (here: first device list arriving at the reset state)
does NOT produce an immediate redraw: the dispatcher calls
`update(false)`, which only calls `chart.update()` when the pass itself
changed state, and with nothing to prune it returns `false`. -/
theorem C2_counterexample :
    handlerChanged initState (Msg.updateDevicesMsg ["A"]) = true ∧
    (onMessage initState (Msg.updateDevicesMsg ["A"]) 1).2 = false := by
  constructor
  · rfl
  · rfl

theorem update_false_flag (x : VibeState) (dt : ℚ) :
    (update x dt false).2 = (decide (0 < dt) && (statePrune x).2) := by
  unfold update
  by_cases hdt : dt ≤ 0
  · rw [if_pos hdt]
    have hd : decide (0 < dt) = false := decide_eq_false (not_lt.mpr hdt)
    simp [hd]
  · rw [if_neg hdt]
    have hd : decide (0 < dt) = true := decide_eq_true (not_le.mp hdt)
    simp [hd]

/-- C2 amended.  A dispatch performs the immediate redraw iff the
dispatcher kept the handler's changed flag (`doUpdate`), the measured
wall-clock delta is positive, and the immediate `update(false)` pass
itself pruned something; in particular a `reset-group` dispatch discards
the handler's changed flag (its state change is applied, but `doUpdate`
stays false) and therefore never triggers an immediate redraw. -/
theorem C2_redraw_behavior :
    (∀ (s : VibeState) (m : Msg) (dt : ℚ),
      (onMessage s m dt).2 =
        ((handlerStep s m).2 && (decide (0 < dt) && (statePrune (handlerStep s m).1).2))) ∧
    (∀ s : VibeState,
      (handlerStep s Msg.resetGroupMsg).2 = false ∧
      (handlerStep s Msg.resetGroupMsg).1 = (resetGroup s).1) := by
  constructor
  · intro s m dt
    unfold onMessage
    dsimp only
    by_cases hs : (handlerStep s m).2 = true
    · rw [hs]
      simp only [eq_self_iff_true, if_true, Bool.true_and]
      exact update_false_flag (handlerStep s m).1 dt
    · have hs' : (handlerStep s m).2 = false := Bool.eq_false_iff.mpr hs
      rw [hs']
      simp
  · intro s
    exact ⟨rfl, rfl⟩

/-! ### C3: addFrame sample structure -/

theorem appendTargets_getD (tm : List (String × ℚ)) (tA tB : ℚ) :
    ∀ (ns : List String) (dss : List (List Sample)) (i : ℕ),
      (appendTargets tm tA tB ns dss).getD i [] =
        match dss[i]? with
        | none => []
        | some ds =>
          match ns[i]? with
          | none => ds
          | some n =>
            match mapGet tm n with
            | some v => ds ++ [⟨tA, v⟩, ⟨tB, v⟩]
            | none => ds := by
  intro ns
  induction ns with
  | nil =>
    intro dss i
    cases dss with
    | nil => simp [appendTargets]
    | cons ds dss =>
      cases i with
      | zero => simp [appendTargets]
      | succ j =>
        simp only [appendTargets, List.getElem?_cons_succ, List.getElem?_nil]
        rw [List.getD_eq_getElem?_getD, List.getElem?_cons_succ]
        cases hq : dss[j]? with
        | none => rfl
        | some d => rfl
  | cons n ns ih =>
    intro dss i
    cases dss with
    | nil => simp [appendTargets]
    | cons ds dss =>
      cases i with
      | zero => simp [appendTargets]
      | succ j =>
        simp only [appendTargets, List.getElem?_cons_succ]
        have := ih dss j
        simpa using this

theorem zip_any_isSome (tm : List (String × ℚ)) :
    ∀ (ns : List String) (dss : List (List Sample)), ns.length ≤ dss.length →
      ((ns.zip dss).any (fun p => (mapGet tm p.1).isSome))
        = ns.any (fun n => (mapGet tm n).isSome) := by
  intro ns
  induction ns with
  | nil => intro dss _; simp
  | cons n ns ih =>
    intro dss h
    cases dss with
    | nil => simp at h
    | cons ds dss =>
      simp only [List.zip_cons_cons, List.any_cons]
      rw [ih dss (by simpa using h)]

theorem addFrame_total (s : VibeState) (frame : VibeFrame) :
    (addFrame s frame).1.total =
      if (addFrame s frame).2 then s.total + frame.duration else s.total := by
  unfold addFrame
  split
  · simp
  · rfl

/-- C3.  For every frame with positive duration (and a device list within
the slot capacity, as maintained by the registry), `addFrame` appends to
the dataset of each listed device that resolves a target exactly the two
samples `(total, v)` and
`(total + duration - min(duration * 0.2, STEP_SMOOTHING), v)`, leaves
datasets of unresolved devices alone, reports `true` iff at least one
listed device resolved a target, and advances `total` by the duration
exactly when it reports `true`.  Concretely, from the reset state with
device list `[X]`, the frame `{duration: 1000, value: 1.0, targets: [],
mode: OVERRIDE}` yields samples `(0, 1), (900, 1)` for `X` and
`total = 1000`. -/
theorem C3_addFrame_appends :
    (∀ (s : VibeState) (frame : VibeFrame),
      0 < frame.duration → s.devices.length ≤ s.datasets.length →
      (∀ (i : ℕ) (n : String), s.devices[i]? = some n →
        (∀ v : ℚ, mapGet (mapVibeTargets s.devices frame) n = some v →
          (addFrame s frame).1.datasets.getD i [] =
            s.datasets.getD i [] ++
              [⟨s.total, v⟩,
               ⟨s.total + frame.duration
                  - mathMin (frame.duration * (1/5)) STEP_SMOOTHING, v⟩]) ∧
        (mapGet (mapVibeTargets s.devices frame) n = none →
          (addFrame s frame).1.datasets.getD i [] = s.datasets.getD i [])) ∧
      ((addFrame s frame).2
        = s.devices.any (fun n => (mapGet (mapVibeTargets s.devices frame) n).isSome)) ∧
      ((addFrame s frame).1.total =
        if (addFrame s frame).2 then s.total + frame.duration else s.total)) ∧
    ((addFrame {initState with devices := ["X"]}
        ⟨0, 1000, 1, [], .OVERRIDE⟩).1.datasets.getD 0 [] = [⟨0, 1⟩, ⟨900, 1⟩] ∧
      (addFrame {initState with devices := ["X"]} ⟨0, 1000, 1, [], .OVERRIDE⟩).1.total
        = 1000 ∧
      (addFrame {initState with devices := ["X"]} ⟨0, 1000, 1, [], .OVERRIDE⟩).2
        = true) := by
  constructor
  · intro s frame hdur hlen
    have hd : ¬ frame.duration ≤ 0 := not_le.mpr hdur
    have hsets : (addFrame s frame).1.datasets =
        appendTargets (mapVibeTargets s.devices frame) s.total
          (s.total + frame.duration - mathMin (frame.duration * (1/5)) STEP_SMOOTHING)
          s.devices s.datasets := by
      unfold addFrame
      rw [if_neg hd]
    have hflag : (addFrame s frame).2 =
        (s.devices.zip s.datasets).any
          (fun p => (mapGet (mapVibeTargets s.devices frame) p.1).isSome) := by
      unfold addFrame
      rw [if_neg hd]
    refine ⟨?_, ?_, addFrame_total s frame⟩
    · intro i n hn
      have hi : i < s.devices.length := (List.getElem?_eq_some.mp hn).1
      have hi' : i < s.datasets.length := lt_of_lt_of_le hi hlen
      cases hq : s.datasets[i]? with
      | none =>
        rw [List.getElem?_eq_none_iff] at hq
        omega
      | some d =>
        have hgd : s.datasets.getD i [] = d := by
          rw [List.getD_eq_getElem?_getD, hq]
          rfl
        rw [hsets, appendTargets_getD, hq, hn]
        dsimp only
        constructor
        · intro v hv
          rw [hv, hgd]
        · intro hv
          rw [hv, hgd]
    · rw [hflag]
      exact zip_any_isSome _ s.devices s.datasets hlen
  · refine ⟨?_, ?_, ?_⟩ <;>
      norm_num [addFrame, mapVibeTargets, mapSet, mapHas, mapGet, appendTargets,
        mathMin, STEP_SMOOTHING, initState, NUM_SLOTS, List.replicate]

/-- Witness for C3's universally quantified part at a concrete state: two
devices, one resolving a target (OVERRIDE fills it), one dataset check
per branch, plus flag and total. -/
theorem C3_addFrame_appends_witness :
    (addFrame {initState with devices := ["X"]}
        ⟨3, 500, 1, [], .EXCLUSIVE⟩).1.datasets.getD 0 []
      = {initState with devices := ["X"]}.datasets.getD 0 [] ∧
    (addFrame {initState with devices := ["X"]} ⟨3, 500, 1, [], .EXCLUSIVE⟩).2
      = (["X"].any (fun n =>
          (mapGet (mapVibeTargets ["X"] ⟨3, 500, 1, [], .EXCLUSIVE⟩) n).isSome)) := by
  constructor
  · exact ((C3_addFrame_appends.1 {initState with devices := ["X"]}
        ⟨3, 500, 1, [], .EXCLUSIVE⟩ (by norm_num) (by simp [initState, NUM_SLOTS])).1
        0 "X" rfl).2 rfl
  · exact (C3_addFrame_appends.1 {initState with devices := ["X"]}
        ⟨3, 500, 1, [], .EXCLUSIVE⟩ (by norm_num) (by simp [initState, NUM_SLOTS])).2.1

/-! ### C6: updateDevices -/

theorem range_map_getD (n : ℕ) (f : ℕ → List Sample) (i : ℕ) :
    ((List.range n).map f).getD i [] = if i < n then f i else [] := by
  rw [List.getD_eq_getElem?_getD, List.getElem?_map]
  by_cases h : i < n
  · rw [if_pos h, List.getElem?_range h]
    rfl
  · rw [if_neg h, List.getElem?_eq_none]
    · rfl
    · simpa using not_lt.mp h

/-- C6.  `updateDevices` reports `false` and changes nothing iff the new
name list equals the current one; otherwise it reports `true`, truncates
the device list to the slot count, rebuilds each slot from the data the
old layout held under that slot's (new) device name — empty when the
name had no prior data — and clears every slot beyond the new device
count.  Concretely, updating `[A, B]` (with data) to `[B, A]` swaps the
two slots' data with no loss. -/
theorem C6_update_devices :
    (∀ (s : VibeState) (nd : List String),
      ((updateDevices s nd).2 = false ∧ (updateDevices s nd).1 = s) ↔ s.devices = nd) ∧
    (∀ (s : VibeState) (nd : List String), s.devices ≠ nd →
      (updateDevices s nd).2 = true ∧
      (updateDevices s nd).1.devices = nd.take s.datasets.length ∧
      (updateDevices s nd).1.datasets.length = s.datasets.length ∧
      (∀ i : ℕ, i < (nd.take s.datasets.length).length →
        (updateDevices s nd).1.datasets.getD i [] =
          oldDataByName s.devices s.datasets ((nd.take s.datasets.length).getD i "")) ∧
      (∀ i : ℕ, (nd.take s.datasets.length).length ≤ i →
        (updateDevices s nd).1.datasets.getD i [] = [])) ∧
    updateDevices
        {initState with
          devices := ["A", "B"],
          datasets := [[⟨0, 1⟩], [⟨0, 1/2⟩], [], [], []]} ["B", "A"]
      = ({initState with
          devices := ["B", "A"],
          datasets := [[⟨0, 1/2⟩], [⟨0, 1⟩], [], [], []]}, true) := by
  refine ⟨?_, ?_, rfl⟩
  · intro s nd
    constructor
    · intro hpair
      by_cases hd : s.devices = nd
      · exact hd
      · have h1 := hpair.1
        unfold updateDevices at h1
        rw [if_neg hd] at h1
        simp at h1
    · intro h
      unfold updateDevices
      rw [if_pos h]
      exact ⟨rfl, rfl⟩
  · intro s nd h
    have hu : updateDevices s nd =
        ({s with
            devices := nd.take s.datasets.length,
            datasets := (List.range s.datasets.length).map (fun i =>
              match (nd.take s.datasets.length)[i]? with
              | some n => oldDataByName s.devices s.datasets n
              | none => [])}, true) := by
      unfold updateDevices
      rw [if_neg h]
    have htk : (nd.take s.datasets.length).length ≤ s.datasets.length := by
      simp [List.length_take]
    refine ⟨by rw [hu], by rw [hu], ?_, ?_, ?_⟩
    · rw [hu]
      simp
    · intro i hi
      have hiL : i < s.datasets.length := lt_of_lt_of_le hi htk
      rw [hu]
      dsimp only
      rw [range_map_getD, if_pos hiL, List.getElem?_eq_getElem hi,
        List.getD_eq_getElem _ _ hi]
    · intro i hi
      rw [hu]
      dsimp only
      rw [range_map_getD]
      by_cases hiL : i < s.datasets.length
      · rw [if_pos hiL, List.getElem?_eq_none hi]
      · rw [if_neg hiL]

/-- Witness for C6 at concrete inputs: the no-op direction of the iff and
the remap postcondition hypotheses discharged at an actual device
change. -/
theorem C6_update_devices_witness :
    ((updateDevices {initState with devices := ["A"]} ["A"]).2 = false ∧
      (updateDevices {initState with devices := ["A"]} ["A"]).1
        = {initState with devices := ["A"]}) ∧
    (updateDevices {initState with devices := ["A"]} ["B", "A"]).2 = true ∧
    (updateDevices {initState with devices := ["A"]} ["B", "A"]).1.datasets.getD 0 []
      = oldDataByName ["A"] {initState with devices := ["A"]}.datasets
          ((["B", "A"].take 5).getD 0 "") := by
  refine ⟨(C6_update_devices.1 {initState with devices := ["A"]} ["A"]).mpr rfl,
          (C6_update_devices.2.1 {initState with devices := ["A"]} ["B", "A"]
            (by decide)).1,
          ?_⟩
  have h := (C6_update_devices.2.1 {initState with devices := ["A"]} ["B", "A"]
    (by decide)).2.2.2.1 0 (by simp [initState, NUM_SLOTS])
  simpa [initState, NUM_SLOTS] using h

/-! ### C4: prune windowing -/

theorem mem_of_getElemQsome {α : Type _} {l : List α} {i : ℕ} {a : α}
    (h : l[i]? = some a) : a ∈ l := by
  obtain ⟨hlt, he⟩ := List.getElem?_eq_some.mp h
  exact he ▸ List.getElem_mem hlt

theorem findCutoffIdx_le_length (c : ℚ) : ∀ d : List Sample, findCutoffIdx c d ≤ d.length := by
  intro d
  induction d with
  | nil => exact Nat.le_refl 0
  | cons sm rest ih =>
    unfold findCutoffIdx
    split
    · exact Nat.succ_le_succ ih
    · exact Nat.zero_le _

theorem findCutoffIdx_lt_cutoff (c : ℚ) :
    ∀ (d : List Sample) (j : ℕ), j < findCutoffIdx c d →
      ∀ sm : Sample, d[j]? = some sm → sm.x < c := by
  intro d
  induction d with
  | nil => intro j hj sm hsm; simp at hsm
  | cons a rest ih =>
    intro j hj sm hsm
    unfold findCutoffIdx at hj
    split at hj
    next hax =>
      cases j with
      | zero =>
        rw [List.getElem?_cons_zero] at hsm
        cases hsm
        exact hax
      | succ k =>
        rw [List.getElem?_cons_succ] at hsm
        exact ih k (Nat.lt_of_succ_lt_succ hj) sm hsm
    next hax => omega

theorem findCutoffIdx_ge_cutoff (c : ℚ) :
    ∀ d : List Sample, List.Pairwise (fun a b : Sample => a.x ≤ b.x) d →
      ∀ j : ℕ, findCutoffIdx c d ≤ j →
        ∀ sm : Sample, d[j]? = some sm → c ≤ sm.x := by
  intro d
  induction d with
  | nil => intro _ j _ sm hsm; simp at hsm
  | cons a rest ih =>
    intro hp j hj sm hsm
    have hpa := (List.pairwise_cons.mp hp).1
    have hpr := (List.pairwise_cons.mp hp).2
    unfold findCutoffIdx at hj
    split at hj
    next hax =>
      cases j with
      | zero => omega
      | succ k =>
        rw [List.getElem?_cons_succ] at hsm
        exact ih hpr k (Nat.le_of_succ_le_succ hj) sm hsm
    next hax =>
      have hca : c ≤ a.x := not_lt.mp hax
      cases j with
      | zero =>
        rw [List.getElem?_cons_zero] at hsm
        cases hsm
        exact hca
      | succ k =>
        rw [List.getElem?_cons_succ] at hsm
        exact le_trans hca (hpa sm (mem_of_getElemQsome hsm))

theorem all_lt_iff_idx_eq_length (c : ℚ) :
    ∀ d : List Sample, (∀ sm ∈ d, sm.x < c) ↔ findCutoffIdx c d = d.length := by
  intro d
  induction d with
  | nil => simp [findCutoffIdx]
  | cons a rest ih =>
    constructor
    · intro h
      have hax : a.x < c := h a (List.mem_cons_self a rest)
      unfold findCutoffIdx
      rw [if_pos hax]
      have := ih.mp (fun sm hsm => h sm (List.mem_cons_of_mem a hsm))
      simp [this]
    · intro h
      unfold findCutoffIdx at h
      split at h
      next hax =>
        intro sm hsm
        rcases List.mem_cons.mp hsm with rfl | hm
        · exact hax
        · have hr : findCutoffIdx c rest = rest.length := by
            simpa using h
          exact ih.mpr hr sm hm
      next hax =>
        exfalso
        have : (a :: rest).length = rest.length + 1 := rfl
        omega

theorem getD_map_pres {α β : Type _} (f : α → β) :
    ∀ (l : List α) (i : ℕ) (d : α), (l.map f).getD i (f d) = f (l.getD i d)
  | [], 0, _ => rfl
  | [], _ + 1, _ => rfl
  | _ :: _, 0, _ => rfl
  | _ :: l, i + 1, d => getD_map_pres f l i d

theorem statePrune_getD (s : VibeState) (i : ℕ) :
    (statePrune s).1.datasets.getD i [] =
      (pruneData (s.now - VISIBLE_PAST) (s.datasets.getD i [])).1 := by
  show ((s.datasets.map (pruneData (s.now - VISIBLE_PAST))).map Prod.fst).getD i [] = _
  rw [List.map_map]
  exact getD_map_pres (fun dd => (pruneData (s.now - VISIBLE_PAST) dd).1) s.datasets i []

theorem pruneData_windowing (c : ℚ) (d : List Sample)
    (hs : List.Pairwise (fun a b : Sample => a.x ≤ b.x) d) :
    (∃ k : ℕ, (pruneData c d).1 = d.drop k) ∧
    ((∀ sm ∈ d, sm.x < c) → (pruneData c d).1 = []) ∧
    (∀ j : ℕ, 0 < j → ∀ sm : Sample, (pruneData c d).1[j]? = some sm → c ≤ sm.x) ∧
    (∀ sm ∈ d, c ≤ sm.x → sm ∈ (pruneData c d).1) := by
  by_cases hlen : d.length = 0
  · have hd : d = [] := List.length_eq_zero.mp hlen
    subst hd
    refine ⟨⟨0, rfl⟩, fun _ => rfl, ?_, ?_⟩
    · intro j _ sm hsm
      simp [pruneData] at hsm
    · intro sm hsm
      simp at hsm
  · unfold pruneData
    rw [if_neg hlen]
    dsimp only
    by_cases hall : findCutoffIdx c d = d.length
    · rw [if_pos hall]
      refine ⟨⟨d.length, (List.drop_length d).symm⟩, fun _ => rfl, ?_, ?_⟩
      · intro j _ sm hsm
        simp at hsm
      · intro sm hsm hc
        have := (all_lt_iff_idx_eq_length c d).mpr hall sm hsm
        exact absurd hc (not_le.mpr this)
    · rw [if_neg hall]
      by_cases hgt : 1 < findCutoffIdx c d
      · rw [if_pos hgt]
        refine ⟨⟨findCutoffIdx c d - 1, rfl⟩, ?_, ?_, ?_⟩
        · intro hallsm
          exact absurd ((all_lt_iff_idx_eq_length c d).mp hallsm) hall
        · intro j hj sm hsm
          rw [List.getElem?_drop] at hsm
          refine findCutoffIdx_ge_cutoff c d hs (findCutoffIdx c d - 1 + j) ?_ sm hsm
          omega
        · intro sm hsm hc
          obtain ⟨j, hjlen, hj⟩ := List.getElem_of_mem hsm
          by_cases hcase : j < findCutoffIdx c d
          · have hlt := findCutoffIdx_lt_cutoff c d j hcase sm
              (by rw [List.getElem?_eq_getElem hjlen, hj])
            exact absurd hc (not_le.mpr hlt)
          · have hdrop : (d.drop (findCutoffIdx c d - 1))[j - (findCutoffIdx c d - 1)]?
                = some sm := by
              rw [List.getElem?_drop]
              have harith : findCutoffIdx c d - 1 + (j - (findCutoffIdx c d - 1)) = j := by
                omega
              rw [harith, List.getElem?_eq_getElem hjlen, hj]
            exact mem_of_getElemQsome hdrop
      · rw [if_neg hgt]
        refine ⟨⟨0, (List.drop_zero d).symm⟩, ?_, ?_, fun sm hsm _ => hsm⟩
        · intro hallsm
          exact absurd ((all_lt_iff_idx_eq_length c d).mp hallsm) hall
        · intro j hj sm hsm
          refine findCutoffIdx_ge_cutoff c d hs j ?_ sm hsm
          omega

/-- C4.  For every device sequence (ordered by time, the documented
shape of a timeline sequence) and every `now`, `prune` removes samples
only from the head (the result is a suffix of the input); if every
sample's time is below `now - VISIBLE_PAST` the sequence is cleared
entirely; otherwise every remaining sample beyond the first has time at
least `now - VISIBLE_PAST` (so at most one retained sample — the padding
sample immediately preceding the cutoff — lies before it), and no sample
at or after the cutoff is removed. -/
theorem C4_prune_windowing :
    ∀ (s : VibeState) (i : ℕ),
      List.Pairwise (fun a b : Sample => a.x ≤ b.x) (s.datasets.getD i []) →
      (∃ k : ℕ, (statePrune s).1.datasets.getD i [] = (s.datasets.getD i []).drop k) ∧
      ((∀ sm ∈ s.datasets.getD i [], sm.x < s.now - VISIBLE_PAST) →
        (statePrune s).1.datasets.getD i [] = []) ∧
      (∀ j : ℕ, 0 < j → ∀ sm : Sample,
        ((statePrune s).1.datasets.getD i [])[j]? = some sm →
        s.now - VISIBLE_PAST ≤ sm.x) ∧
      (∀ sm ∈ s.datasets.getD i [], s.now - VISIBLE_PAST ≤ sm.x →
        sm ∈ (statePrune s).1.datasets.getD i []) := by
  intro s i hs
  rw [statePrune_getD s i]
  exact pruneData_windowing (s.now - VISIBLE_PAST) (s.datasets.getD i []) hs

/-- Witness for C4 at concrete states: an all-expired sequence is
cleared; a sample at the cutoff survives; and the conjunct about indices
past the head applies at index 1. -/
theorem C4_prune_windowing_witness :
    (statePrune {initState with
        datasets := [[⟨0, 1⟩], [], [], [], []],
        now := 11000}).1.datasets.getD 0 [] = [] ∧
    (⟨6000, 1⟩ : Sample) ∈ (statePrune {initState with
        datasets := [[⟨0, 1⟩, ⟨6000, 1⟩], [], [], [], []],
        now := 11000}).1.datasets.getD 0 [] ∧
    ({initState with
        datasets := [[⟨0, 1⟩, ⟨6000, 1⟩], [], [], [], []],
        now := 11000} : VibeState).now - VISIBLE_PAST ≤ (⟨6000, 1⟩ : Sample).x := by
  refine ⟨?_, ?_, ?_⟩
  · exact (C4_prune_windowing _ 0 (by simp)).2.1
      (by intro sm hsm; simp at hsm; subst hsm; norm_num [VISIBLE_PAST])
  · exact (C4_prune_windowing _ 0
        (by simp [List.pairwise_cons])).2.2.2 ⟨6000, 1⟩
      (by norm_num [Sample.mk.injEq]) (by norm_num [VISIBLE_PAST])
  · exact (C4_prune_windowing _ 0
        (by simp [List.pairwise_cons])).2.2.1 1 (by norm_num) ⟨6000, 1⟩
      (by norm_num [statePrune, pruneData, findCutoffIdx, VISIBLE_PAST, initState])

/-! ### C9: monotonic sample times -/

/-- Invariant carried through `addFrame` folds: every dataset is sorted
by time and bounded by the running `total`. -/
def BufferInv (s : VibeState) : Prop :=
  ∀ i : ℕ, List.Pairwise (fun a b : Sample => a.x ≤ b.x) (s.datasets.getD i []) ∧
    ∀ sm ∈ s.datasets.getD i [], sm.x ≤ s.total

theorem mathMin_smoothing_bounds (dur : ℚ) (h : 0 < dur) :
    0 ≤ mathMin (dur * (1/5)) STEP_SMOOTHING ∧
    mathMin (dur * (1/5)) STEP_SMOOTHING ≤ dur := by
  unfold mathMin STEP_SMOOTHING
  split
  · constructor <;> linarith
  next hcond =>
    have : (100 : ℚ) < dur * (1/5) := by
      have := not_le.mp hcond
      simpa [STEP_SMOOTHING] using this
    constructor <;> linarith

theorem mem_zip_of_getElemQ {α β : Type _} :
    ∀ (l1 : List α) (l2 : List β) (i : ℕ) (a : α) (b : β),
      l1[i]? = some a → l2[i]? = some b → (a, b) ∈ l1.zip l2 := by
  intro l1
  induction l1 with
  | nil => intro l2 i a b ha _; simp at ha
  | cons x l1 ih =>
    intro l2 i a b ha hb
    cases l2 with
    | nil => simp at hb
    | cons y l2 =>
      cases i with
      | zero =>
        rw [List.getElem?_cons_zero] at ha hb
        cases ha
        cases hb
        exact List.mem_cons_self _ _
      | succ j =>
        rw [List.getElem?_cons_succ] at ha hb
        exact List.mem_cons_of_mem _ (ih l2 j a b ha hb)

theorem addFrame_bufferInv (s : VibeState) (frame : VibeFrame) (h : BufferInv s) :
    BufferInv (addFrame s frame).1 := by
  by_cases hd : frame.duration ≤ 0
  · have heq : addFrame s frame = (s, false) := by unfold addFrame; rw [if_pos hd]
    rw [heq]
    exact h
  · have hdur : 0 < frame.duration := not_le.mp hd
    have hmm := mathMin_smoothing_bounds frame.duration hdur
    have hsets : (addFrame s frame).1.datasets =
        appendTargets (mapVibeTargets s.devices frame) s.total
          (s.total + frame.duration - mathMin (frame.duration * (1/5)) STEP_SMOOTHING)
          s.devices s.datasets := by
      unfold addFrame
      rw [if_neg hd]
    have htotal : s.total ≤ (addFrame s frame).1.total := by
      rw [addFrame_total]
      split
      · linarith
      · exact le_refl _
    intro i
    rw [hsets, appendTargets_getD]
    cases hq : s.datasets[i]? with
    | none =>
      refine ⟨List.Pairwise.nil, ?_⟩
      intro sm hsm
      simp at hsm
    | some d =>
      have hgd : s.datasets.getD i [] = d := by
        rw [List.getD_eq_getElem?_getD, hq]
        rfl
      have hPd := (h i).1
      have hBd := (h i).2
      rw [hgd] at hPd hBd
      cases hn : s.devices[i]? with
      | none =>
        dsimp only
        exact ⟨hPd, fun sm hsm => le_trans (hBd sm hsm) htotal⟩
      | some n =>
        cases hg : mapGet (mapVibeTargets s.devices frame) n with
        | none =>
          dsimp only
          rw [hg]
          exact ⟨hPd, fun sm hsm => le_trans (hBd sm hsm) htotal⟩
        | some v =>
          dsimp only
          rw [hg]
          have hflag : (addFrame s frame).2 = true := by
            unfold addFrame
            rw [if_neg hd]
            dsimp only
            rw [List.any_eq_true]
            exact ⟨(n, d), mem_zip_of_getElemQ s.devices s.datasets i n d hn hq,
              by simp [hg]⟩
          have htot' : (addFrame s frame).1.total = s.total + frame.duration := by
            rw [addFrame_total, hflag]
            simp
          constructor
          · rw [List.pairwise_append]
            refine ⟨hPd, ?_, ?_⟩
            · rw [List.pairwise_cons]
              refine ⟨?_, List.pairwise_singleton _ _⟩
              intro b hb
              rw [List.mem_singleton] at hb
              subst hb
              show s.total ≤ s.total + frame.duration -
                mathMin (frame.duration * (1/5)) STEP_SMOOTHING
              linarith [hmm.2]
            · intro a ha b hb
              have hat := hBd a ha
              rw [List.mem_cons, List.mem_singleton] at hb
              rcases hb with rfl | rfl
              · exact hat
              · show a.x ≤ s.total + frame.duration -
                  mathMin (frame.duration * (1/5)) STEP_SMOOTHING
                linarith [hmm.2]
          · intro sm hsm
            rw [htot']
            rcases List.mem_append.mp hsm with hm | hm
            · have := hBd sm hm
              linarith
            · rw [List.mem_cons, List.mem_singleton] at hm
              rcases hm with rfl | rfl
              · show s.total ≤ s.total + frame.duration
                linarith
              · show s.total + frame.duration -
                      mathMin (frame.duration * (1/5)) STEP_SMOOTHING
                    ≤ s.total + frame.duration
                linarith [hmm.1]

theorem replicate_getD_nil (n : ℕ) :
    ∀ i : ℕ, (List.replicate n ([] : List Sample)).getD i [] = [] := by
  induction n with
  | zero => intro i; cases i <;> rfl
  | succ m ih =>
    intro i
    cases i with
    | zero => rfl
    | succ j => exact ih j

/-- C9.  Starting from the empty/reset state (any device list, all
datasets empty, `total = 0`), after any sequence of `addFrame` calls
every device's sample times are non-decreasing: each frame's two samples
are ordered, and no later frame's samples precede any earlier sample. -/
theorem C9_monotonic_time :
    ∀ (devs : List String) (frames : List VibeFrame) (i : ℕ),
      List.Pairwise (fun a b : Sample => a.x ≤ b.x)
        ((applyFrames {initState with devices := devs} frames).datasets.getD i []) := by
  have hstep : ∀ (frames : List VibeFrame) (s : VibeState),
      BufferInv s → BufferInv (applyFrames s frames) := by
    intro frames
    induction frames with
    | nil => intro s h; exact h
    | cons f fs ih => intro s h; exact ih _ (addFrame_bufferInv s f h)
  intro devs frames i
  have h0 : BufferInv {initState with devices := devs} := by
    intro j
    have hnil : ({initState with devices := devs} : VibeState).datasets.getD j [] = [] :=
      replicate_getD_nil NUM_SLOTS j
    rw [hnil]
    exact ⟨List.Pairwise.nil, fun sm hsm => absurd hsm (List.not_mem_nil sm)⟩
  exact (hstep frames _ h0 i).1

end VibeGraph
